import Mathlib

/-
Verification development for the cropscape-clip repository.

We shallowly embed the Python sources:
  * clip_cropscape_to_area_of_interest.py  (area-of-interest clipping loop)
  * src/summarize_raster.py                (summarize_raster, process_feature_layer)
  * src/main.py                            (reclass_spec, id sanitization,
                                            chunk-name reconstruction, merge loop)

Machine integers of the rasters are land-cover codes in 0..255; we model them
as plain Nat (no arithmetic overflows anywhere in the modelled code).
Filesystem paths are modelled as lists of path components, and the filesystem
as the list of paths that exist.  Python exceptions are modelled with Except,
where the error value also carries the state at the moment of the raise
(Python exceptions do not roll state back).
-/

/-! ## Pixel histograms

`numpy.unique(band, return_counts=True)` followed by `dict(zip(..))`:
the distinct values of the flattened band, each paired with its number of
occurrences.  (numpy additionally returns the distinct values sorted; the
order of the entries is irrelevant to every claim, so we keep first-occurrence
order via `List.dedup`.) -/

def pixelClassCounts (xs : List Nat) : List (Nat × Nat) :=
  xs.dedup.map (fun v => (v, xs.count v))

/-- Sum of the values of a `pixel_counts` dictionary, and also
`int(numpy.sum(counts))` over the counts array (the same multiset of numbers,
since the keys produced by `numpy.unique` are distinct). -/
def sumCounts (l : List (Nat × Nat)) : Nat := (l.map Prod.snd).sum

theorem sumCounts_pixelClassCounts (xs : List Nat) :
    sumCounts (pixelClassCounts xs) = xs.length := by
  simpa [sumCounts, pixelClassCounts, List.map_map, Function.comp_def] using
    List.sum_map_count_dedup_eq_length xs

/-! ## Filesystem and process state model

Paths are lists of components; the filesystem is the list of existing paths.
`SysState` additionally tracks the open rasterio dataset handles (by raster
path), so that the file-handle lifecycle of `summarize_raster` is visible. -/

abbrev FsPath := List String

def addPath (fs : List FsPath) (p : FsPath) : List FsPath :=
  if p ∈ fs then fs else fs ++ [p]

/-- shutil.rmtree: remove a directory and everything under it. -/
def rmtree (fs : List FsPath) (dir : FsPath) : List FsPath :=
  fs.filter (fun p => ¬ dir <+: p)

structure SysState where
  openHandles : List String
  files : List FsPath
deriving DecidableEq, Repr

/-! ## Zonal summarizer (src/summarize_raster.py) -/

/-- A rasterio dataset.  Every rasterio dataset has at least one band, so we
split the band list into `band1` (what `raster.read(1)` returns) and the
remaining bands.  `name` stands for the dataset's base name (the path-string
munging `os.path.basename(os.path.splitext(..))` belongs to the os library). -/
structure Raster where
  name : String
  band1 : List (List Nat)
  otherBands : List (List (List Nat))
deriving DecidableEq, Repr

inductive ClipError
  | emptyIntersection
deriving DecidableEq, Repr

/-- One polygon feature of the feature layer.  `id` is the (stringified)
value of the `id_key` column.  `clip` records the outcome of clipping this
feature's polygon against the raster being summarized: `some window` is the
band-1 pixel window produced by the geometry clipper (`out_image[0]`), and
`none` means the polygon does not intersect the raster extent. -/
structure Feature where
  id : String
  clip : Option (List (List Nat))
deriving DecidableEq, Repr

/-- Modelled from the spec: `clip_raster` (imported from clip_raster.py, which
is not part of the repository snapshot).  Per spec section 4.1, the geometry
clipper returns the minimal-bounding-box pixel window masked to the polygon,
and "Fails with EmptyIntersectionError when the polygon does not intersect the
raster extent"; the caller decides whether that is fatal.  The window data for
the (raster, feature) pair is carried by the feature itself. -/
def clip_raster (_band1 : List (List Nat)) (f : Feature) :
    Except ClipError (List (List Nat)) :=
  match f.clip with
  | some window => .ok window
  | none => .error .emptyIntersection

structure FeatureMeta where
  id : String
  total_pixels : Nat
  pixel_counts : List (Nat × Nat)
deriving DecidableEq, Repr

/-- The artifact file name `{raster_name}__{feature_layer_name}` + extension. -/
def artifactName (rasterName featureLayerName ext : String) : String :=
  rasterName ++ "__" ++ featureLayerName ++ ext

/-- Loop body of `process_feature_layer` (src/summarize_raster.py lines
113-173), one iteration per feature, in feature-layer row order:
makedirs the per-feature output folder, clip, histogram the clipped band,
append the per-feature record, optionally persist json + tiff, and in
ephemeral mode remove the per-feature temp folder.  There is no try/except
around the body: an error raised by `clip_raster` propagates and the
remaining features are not processed. -/
def pflLoop (band1 : List (List Nat)) (rasterName featureLayerName : String)
    (output_folder_path : Option String) :
    List Feature → List FeatureMeta → List FsPath →
    Except (ClipError × List FsPath) (List FeatureMeta × List FsPath)
  | [], acc, fs => .ok (acc, fs)
  | f :: rest, acc, fs =>
    -- if the output folder path is not provided, use a temporary folder
    let out_folder_path := output_folder_path.getD "./temp"
    let output_folder : FsPath := [out_folder_path, f.id]
    let output_raster_file : FsPath :=
      output_folder ++ [artifactName rasterName featureLayerName ".tiff"]
    let output_json_file : FsPath :=
      output_folder ++ [artifactName rasterName featureLayerName ".json"]
    let fs1 := addPath fs output_folder      -- os.makedirs(output_folder)
    match clip_raster band1 f with
    | .error e => .error (e, fs1)
    | .ok out_image =>
      let counts := pixelClassCounts out_image.flatten
      let meta : FeatureMeta :=
        { id := f.id, total_pixels := sumCounts counts, pixel_counts := counts }
      let acc1 := acc ++ [meta]
      let fs2 := if output_folder_path.isSome
        then addPath (addPath fs1 output_json_file) output_raster_file
        else fs1
      let fs3 := if output_folder_path.isNone then rmtree fs2 output_folder else fs2
      pflLoop band1 rasterName featureLayerName output_folder_path rest acc1 fs3

/-- `process_feature_layer` (src/summarize_raster.py lines 99-181): run the
per-feature loop, then in ephemeral mode (`output_folder_path is None`)
remove the main temp folder. -/
def process_feature_layer (band1 : List (List Nat))
    (rasterName featureLayerName : String) (features : List Feature)
    (output_folder_path : Option String) (fs : List FsPath) :
    Except (ClipError × List FsPath) (List FeatureMeta × List FsPath) :=
  match pflLoop band1 rasterName featureLayerName output_folder_path features [] fs with
  | .error e => .error e
  | .ok (breakdowns, fs1) =>
    let fs2 := if output_folder_path.isNone then rmtree fs1 ["./temp"] else fs1
    .ok (breakdowns, fs2)

structure Summary where
  total_pixels : Nat
  pixel_counts : List (Nat × Nat)
  breakdown : Option (List FeatureMeta)
deriving DecidableEq, Repr

/-- `summarize_raster` (src/summarize_raster.py lines 20-87): open the
raster (acquiring the file handle), read band 1 only, histogram it, run the
per-feature breakdown when a feature layer and id key are supplied, write the
summary json when requested and close the raster.  The call is not wrapped in
try/finally (and does not use a `with` block), so when the breakdown raises,
the exception propagates with `raster.close()` never executed.  The progress
status/bar and the lock-guarded shared counter are pure reporting and are not
modelled. -/
def summarize_raster (r : Raster) (summary_output_path : Option FsPath)
    (feature_layer : Option (List Feature × String))
    (breakdown_output_folder_path : Option String) (st : SysState) :
    Except (ClipError × SysState) (Summary × SysState) :=
  -- rasterio.open: the handle is now held
  let st1 : SysState := { st with openHandles := st.openHandles ++ [r.name] }
  -- we only look at band 1 -- multiband rasters are not supported
  let band1 := r.band1
  let counts := pixelClassCounts band1.flatten
  let bd : Except (ClipError × SysState) (Option (List FeatureMeta) × SysState) :=
    match feature_layer with
    | some (features, featureLayerName) =>
      match process_feature_layer band1 r.name featureLayerName features
          breakdown_output_folder_path st1.files with
      | .error (e, fs) => .error (e, { st1 with files := fs })
      | .ok (b, fs) => .ok (some b, { st1 with files := fs })
    | none => .ok (none, st1)
  match bd with
  | .error e => .error e   -- exception propagates: the raster is never closed
  | .ok (breakdown_metadata, st2) =>
    let feature_metadata : Summary :=
      { total_pixels := sumCounts counts
        pixel_counts := counts
        breakdown := breakdown_metadata }
    let st3 := match summary_output_path with
      | some p => { st2 with files := addPath st2.files p }
      | none => st2
    -- remove the lock on the raster
    let st4 := { st3 with openHandles := st3.openHandles.erase r.name }
    .ok (feature_metadata, st4)

/-! ## C1: histogram conservation -/

theorem flatten_length_rect (g : List (List Nat)) (w : Nat)
    (h : ∀ row ∈ g, row.length = w) : g.flatten.length = g.length * w := by
  induction g with
  | nil => simp
  | cons a t ih =>
    have ha : a.length = w := h a (by simp)
    have ht : ∀ row ∈ t, row.length = w := fun row hr => h row (by simp [hr])
    simp [ha, ih ht, Nat.succ_mul, Nat.add_comm]

theorem pflLoop_ok_forall2 (band1 : List (List Nat)) (rn fln : String)
    (ofp : Option String) :
    ∀ (features : List Feature) (acc : List FeatureMeta) (fs : List FsPath)
      (b : List FeatureMeta) (fs' : List FsPath),
      pflLoop band1 rn fln ofp features acc fs = .ok (b, fs') →
      ∃ tail, b = acc ++ tail ∧
        List.Forall₂ (fun (f : Feature) (m : FeatureMeta) =>
          ∃ win, f.clip = some win ∧
            m.pixel_counts = pixelClassCounts win.flatten ∧
            m.total_pixels = win.flatten.length) features tail := by
  intro features
  induction features with
  | nil =>
    intro acc fs b fs' h
    simp only [pflLoop, Except.ok.injEq, Prod.mk.injEq] at h
    exact ⟨[], by simp [← h.1], List.Forall₂.nil⟩
  | cons f rest ih =>
    intro acc fs b fs' h
    simp only [pflLoop] at h
    cases hc : f.clip with
    | none => rw [clip_raster, hc] at h; exact absurd h (by simp)
    | some win =>
      rw [clip_raster, hc] at h
      simp only at h
      obtain ⟨tail, htail, hf2⟩ := ih _ _ _ _ h
      refine ⟨{ id := f.id,
                total_pixels := sumCounts (pixelClassCounts win.flatten),
                pixel_counts := pixelClassCounts win.flatten } :: tail, ?_, ?_⟩
      · simpa using htail
      · exact List.Forall₂.cons
          ⟨win, hc, rfl, by simp [sumCounts_pixelClassCounts]⟩ hf2

/-- C1: for every raster summarized by `summarize_raster`, the returned
`total_pixels` equals the sum of the values of `pixel_counts` and equals
width*height of the raster band; and every per-feature record produced by
`process_feature_layer` has `total_pixels` equal to the sum of that feature's
`pixel_counts` values, which is the count of pixels in the feature's clipped
window. -/
theorem c1_histogram_conservation (r : Raster) (w : Nat) (sp : Option FsPath)
    (fl : Option (List Feature × String)) (bofp : Option String)
    (st : SysState) (s : Summary) (st' : SysState)
    (hrect : ∀ row ∈ r.band1, row.length = w)
    (hok : summarize_raster r sp fl bofp st = .ok (s, st')) :
    s.total_pixels = sumCounts s.pixel_counts ∧
    s.total_pixels = r.band1.length * w ∧
    ∀ features fln, fl = some (features, fln) →
      ∃ b, s.breakdown = some b ∧
        List.Forall₂ (fun (f : Feature) (m : FeatureMeta) =>
          m.total_pixels = sumCounts m.pixel_counts ∧
          ∃ win, f.clip = some win ∧ m.total_pixels = win.flatten.length)
          features b := by
  have htot : sumCounts (pixelClassCounts r.band1.flatten) = r.band1.length * w := by
    rw [sumCounts_pixelClassCounts, flatten_length_rect r.band1 w hrect]
  cases fl with
  | none =>
    simp only [summarize_raster] at hok
    simp only [Except.ok.injEq, Prod.mk.injEq] at hok
    obtain ⟨hs, -⟩ := hok
    subst hs
    exact ⟨rfl, htot, fun features fln h => absurd h (by simp)⟩
  | some p =>
    obtain ⟨features, fln⟩ := p
    simp only [summarize_raster, process_feature_layer] at hok
    cases hloop : pflLoop r.band1 r.name fln bofp features [] st.files with
    | error e => rw [hloop] at hok; exact absurd hok (by simp)
    | ok bl =>
      obtain ⟨b, fs1⟩ := bl
      rw [hloop] at hok
      simp only [Except.ok.injEq, Prod.mk.injEq] at hok
      obtain ⟨hs, -⟩ := hok
      subst hs
      refine ⟨rfl, htot, ?_⟩
      intro features' fln' heq
      obtain ⟨hf, -⟩ := Prod.mk.injEq .. ▸ (Option.some.inj heq)
      subst hf
      obtain ⟨tail, htail, hf2⟩ := pflLoop_ok_forall2 _ _ _ _ _ _ _ _ _ hloop
      refine ⟨b, rfl, ?_⟩
      rw [htail, List.nil_append]
      refine hf2.imp ?_
      rintro f m ⟨win, hc, hpc, htp⟩
      exact ⟨by rw [htp, hpc, sumCounts_pixelClassCounts], win, hc, htp⟩

theorem c1_histogram_conservation_witness :
    (∀ row ∈ (Raster.mk "r" [[1, 2], [2, 2]] []).band1, row.length = 2) ∧
    ((Summary.mk 4 [(1, 1), (2, 3)]
        (some [FeatureMeta.mk "a" 1 [(5, 1)]])).total_pixels =
      sumCounts (Summary.mk 4 [(1, 1), (2, 3)]
        (some [FeatureMeta.mk "a" 1 [(5, 1)]])).pixel_counts ∧
    (Summary.mk 4 [(1, 1), (2, 3)]
        (some [FeatureMeta.mk "a" 1 [(5, 1)]])).total_pixels =
      (Raster.mk "r" [[1, 2], [2, 2]] []).band1.length * 2 ∧
    ∀ features fln,
      (some ([Feature.mk "a" (some [[5]])], "fl") :
        Option (List Feature × String)) = some (features, fln) →
      ∃ b, (Summary.mk 4 [(1, 1), (2, 3)]
          (some [FeatureMeta.mk "a" 1 [(5, 1)]])).breakdown = some b ∧
        List.Forall₂ (fun (f : Feature) (m : FeatureMeta) =>
          m.total_pixels = sumCounts m.pixel_counts ∧
          ∃ win, f.clip = some win ∧ m.total_pixels = win.flatten.length)
          features b) :=
  ⟨by decide,
    c1_histogram_conservation (Raster.mk "r" [[1, 2], [2, 2]] []) 2 none
      (some ([Feature.mk "a" (some [[5]])], "fl")) none ⟨[], []⟩
      (Summary.mk 4 [(1, 1), (2, 3)] (some [FeatureMeta.mk "a" 1 [(5, 1)]]))
      ⟨[], []⟩ (by decide) (by rfl)⟩

/-! ## C10: only band 1 is read -/

/-- C10: `summarize_raster` computes its histogram exclusively from band 1 of
the input raster: for any input raster, including a multi-band raster, the
result is unchanged when the other bands change (they are silently ignored,
never rejected), and the whole-raster summary is exactly the band-1
statistics, produced without an error. -/
theorem c10_band1_only (b1 : List (List Nat)) (ob ob' : List (List (List Nat)))
    (name : String) (sp : Option FsPath) (fl : Option (List Feature × String))
    (bofp : Option String) (st : SysState) :
    summarize_raster (Raster.mk name b1 ob) sp fl bofp st =
      summarize_raster (Raster.mk name b1 ob') sp fl bofp st ∧
    ∃ s st', summarize_raster (Raster.mk name b1 ob) none none none st = .ok (s, st') ∧
      s.pixel_counts = pixelClassCounts b1.flatten ∧
      s.total_pixels = b1.flatten.length ∧ s.breakdown = none := by
  refine ⟨rfl, _, _, rfl, rfl, ?_, rfl⟩
  exact sumCounts_pixelClassCounts b1.flatten

/-! ## C4: a per-feature error aborts the whole batch

The loop body of `process_feature_layer` has no try/except: the
`EmptyIntersectionError` raised by `clip_raster` for the first feature
propagates, and the second (non-failing) feature is never processed, so the
batch produces no records at all instead of continuing. -/

/-- C4: the claim says an error while processing one feature does not abort
the batch; evaluating `process_feature_layer` on a layer whose first feature
has an empty intersection and whose second feature is fine shows the whole
call raising instead, with no record for the non-failing feature. -/
theorem c4_batch_aborts_on_feature_error :
    process_feature_layer [[7]] "r" "fl"
      [Feature.mk "bad" none, Feature.mk "good" (some [[7]])] none [] =
    .error (ClipError.emptyIntersection, [["./temp", "bad"]]) := by rfl

/-! ## C7: the raster handle leaks on the error path

`summarize_raster` calls `raster.close()` only at the end of the success
path; there is no try/finally and no `with` block, so when the per-feature
breakdown raises, the opened handle is still registered when the exception
propagates out of the call. -/

/-- C7: the claim says the raster file handle opened by `summarize_raster` is
closed on every execution path including error paths; evaluating the call on
a feature layer whose only feature has an empty intersection shows the call
propagating the error with the handle still open. -/
theorem c7_raster_left_open_on_error :
    summarize_raster (Raster.mk "raster" [[7]] []) none
      (some ([Feature.mk "bad" none], "fl")) none (SysState.mk [] []) =
      .error (ClipError.emptyIntersection,
        SysState.mk ["raster"] [["./temp", "bad"]]) ∧
    "raster" ∈ (SysState.mk ["raster"] [["./temp", "bad"]]).openHandles := by
  exact ⟨rfl, by decide⟩

/-! ## C9: ephemeral vs durable per-feature artifacts -/

/-- The per-feature record built by one iteration of the
`process_feature_layer` loop (defined for features whose clip succeeds; the
default branch is never reached on a successful pass). -/
def metaOf (f : Feature) : FeatureMeta :=
  match f.clip with
  | some win =>
    { id := f.id
      total_pixels := sumCounts (pixelClassCounts win.flatten)
      pixel_counts := pixelClassCounts win.flatten }
  | none => { id := "", total_pixels := 0, pixel_counts := [] }

theorem mem_addPath (fs : List FsPath) (p q : FsPath) (h : p ∈ fs) :
    p ∈ addPath fs q := by
  unfold addPath; split
  · exact h
  · exact List.mem_append_left _ h

theorem mem_addPath_self (fs : List FsPath) (p : FsPath) : p ∈ addPath fs p := by
  unfold addPath; split
  · assumption
  · simp

theorem pflLoop_ok_breakdowns (band1 : List (List Nat)) (rn fln : String)
    (ofp : Option String) :
    ∀ (features : List Feature) (acc : List FeatureMeta) (fs : List FsPath)
      (b : List FeatureMeta) (fs' : List FsPath),
      pflLoop band1 rn fln ofp features acc fs = .ok (b, fs') →
      b = acc ++ features.map metaOf := by
  intro features
  induction features with
  | nil =>
    intro acc fs b fs' h
    simp only [pflLoop, Except.ok.injEq, Prod.mk.injEq] at h
    simp [← h.1]
  | cons f rest ih =>
    intro acc fs b fs' h
    simp only [pflLoop] at h
    cases hc : f.clip with
    | none => rw [clip_raster, hc] at h; exact absurd h (by simp)
    | some win =>
      rw [clip_raster, hc] at h
      simp only at h
      have := ih _ _ _ _ h
      simp [this, metaOf, hc]

theorem pflLoop_some_mono (band1 : List (List Nat)) (rn fln folder : String) :
    ∀ (features : List Feature) (acc : List FeatureMeta) (fs : List FsPath)
      (b : List FeatureMeta) (fs' : List FsPath),
      pflLoop band1 rn fln (some folder) features acc fs = .ok (b, fs') →
      ∀ p ∈ fs, p ∈ fs' := by
  intro features
  induction features with
  | nil =>
    intro acc fs b fs' h p hp
    simp only [pflLoop, Except.ok.injEq, Prod.mk.injEq] at h
    exact h.2 ▸ hp
  | cons f rest ih =>
    intro acc fs b fs' h p hp
    simp only [pflLoop] at h
    cases hc : f.clip with
    | none => rw [clip_raster, hc] at h; exact absurd h (by simp)
    | some win =>
      rw [clip_raster, hc] at h
      simp only [Option.isSome_some, Option.isNone_some, if_true, if_false,
        Bool.false_eq_true, Option.getD_some] at h
      exact ih _ _ _ _ h p (mem_addPath _ _ _ (mem_addPath _ _ _ (mem_addPath _ _ _ hp)))

theorem pflLoop_some_artifacts (band1 : List (List Nat)) (rn fln folder : String) :
    ∀ (features : List Feature) (acc : List FeatureMeta) (fs : List FsPath)
      (b : List FeatureMeta) (fs' : List FsPath),
      pflLoop band1 rn fln (some folder) features acc fs = .ok (b, fs') →
      ∀ f ∈ features,
        [folder, f.id, artifactName rn fln ".json"] ∈ fs' ∧
        [folder, f.id, artifactName rn fln ".tiff"] ∈ fs' := by
  intro features
  induction features with
  | nil => intro acc fs b fs' h f hf; exact absurd hf (by simp)
  | cons g rest ih =>
    intro acc fs b fs' h f hf
    simp only [pflLoop] at h
    cases hc : g.clip with
    | none => rw [clip_raster, hc] at h; exact absurd h (by simp)
    | some win =>
      rw [clip_raster, hc] at h
      simp only [Option.isSome_some, Option.isNone_some, if_true, if_false,
        Bool.false_eq_true, Option.getD_some] at h
      rcases List.mem_cons.1 hf with hfg | hfrest
      · subst hfg
        have hjson : [folder, f.id, artifactName rn fln ".json"] ∈
            addPath (addPath (addPath fs [folder, f.id])
              ([folder, f.id] ++ [artifactName rn fln ".json"]))
              ([folder, f.id] ++ [artifactName rn fln ".tiff"]) :=
          mem_addPath _ _ _ (mem_addPath_self _ _)
        have htiff : [folder, f.id, artifactName rn fln ".tiff"] ∈
            addPath (addPath (addPath fs [folder, f.id])
              ([folder, f.id] ++ [artifactName rn fln ".json"]))
              ([folder, f.id] ++ [artifactName rn fln ".tiff"]) :=
          mem_addPath_self _ _
        exact ⟨pflLoop_some_mono _ _ _ _ _ _ _ _ _ h _ (by simpa using hjson),
               pflLoop_some_mono _ _ _ _ _ _ _ _ _ h _ (by simpa using htiff)⟩
      · exact ih _ _ _ _ h f hfrest

/-- C9: in the per-feature pass of the zonal summarizer, when a breakdown
output folder is supplied, each feature's clipped raster and JSON record are
written under that folder and remain after the pass; when no folder is
supplied, the scratch folder `./temp` is used and deleted at the end of the
pass, so no per-feature artifact remains on disk; and the returned in-memory
breakdown is the same in both modes. -/
theorem c9_ephemeral_vs_durable (band1 : List (List Nat)) (rn fln : String)
    (features : List Feature) (folder : String)
    (fsP0 fsE0 : List FsPath) (bP bE : List FeatureMeta) (fsP fsE : List FsPath)
    (hP : process_feature_layer band1 rn fln features (some folder) fsP0 = .ok (bP, fsP))
    (hE : process_feature_layer band1 rn fln features none fsE0 = .ok (bE, fsE)) :
    bP = bE ∧
    (∀ f ∈ features,
      [folder, f.id, artifactName rn fln ".json"] ∈ fsP ∧
      [folder, f.id, artifactName rn fln ".tiff"] ∈ fsP) ∧
    (∀ p ∈ fsE, ¬ ["./temp"] <+: p) := by
  simp only [process_feature_layer] at hP hE
  cases hloopP : pflLoop band1 rn fln (some folder) features [] fsP0 with
  | error e => rw [hloopP] at hP; exact absurd hP (by simp)
  | ok blP =>
    obtain ⟨b1, fs1⟩ := blP
    rw [hloopP] at hP
    simp only [Option.isNone_some, if_false, Bool.false_eq_true,
      Except.ok.injEq, Prod.mk.injEq] at hP
    obtain ⟨hb1, hfs1⟩ := hP
    cases hloopE : pflLoop band1 rn fln none features [] fsE0 with
    | error e => rw [hloopE] at hE; exact absurd hE (by simp)
    | ok blE =>
      obtain ⟨b2, fs2⟩ := blE
      rw [hloopE] at hE
      simp only [Option.isNone_none, if_true, Except.ok.injEq, Prod.mk.injEq] at hE
      obtain ⟨hb2, hfs2⟩ := hE
      refine ⟨?_, ?_, ?_⟩
      · rw [← hb1, ← hb2, pflLoop_ok_breakdowns _ _ _ _ _ _ _ _ _ hloopP,
          pflLoop_ok_breakdowns _ _ _ _ _ _ _ _ _ hloopE]
      · intro f hf
        rw [← hfs1]
        exact pflLoop_some_artifacts _ _ _ _ _ _ _ _ _ hloopP f hf
      · intro p hp
        rw [← hfs2] at hp
        have := List.mem_filter.1 hp
        simpa using this.2

theorem c9_ephemeral_vs_durable_witness :
    (process_feature_layer [[7]] "r" "fl" [Feature.mk "a" (some [[5]])]
        (some "out") [] =
      .ok ([FeatureMeta.mk "a" 1 [(5, 1)]],
        [["out", "a"], ["out", "a", "r__fl.json"], ["out", "a", "r__fl.tiff"]])) ∧
    (process_feature_layer [[7]] "r" "fl" [Feature.mk "a" (some [[5]])]
        none [] =
      .ok ([FeatureMeta.mk "a" 1 [(5, 1)]], [])) ∧
    ([FeatureMeta.mk "a" 1 [(5, 1)]] = [FeatureMeta.mk "a" 1 [(5, 1)]] ∧
    (∀ f ∈ [Feature.mk "a" (some [[5]])],
      ["out", f.id, artifactName "r" "fl" ".json"] ∈
        [["out", "a"], ["out", "a", "r__fl.json"], ["out", "a", "r__fl.tiff"]] ∧
      ["out", f.id, artifactName "r" "fl" ".tiff"] ∈
        [["out", "a"], ["out", "a", "r__fl.json"], ["out", "a", "r__fl.tiff"]]) ∧
    (∀ p ∈ ([] : List FsPath), ¬ ["./temp"] <+: p)) :=
  ⟨by rfl, by rfl,
    c9_ephemeral_vs_durable [[7]] "r" "fl" [Feature.mk "a" (some [[5]])] "out"
      [] [] [FeatureMeta.mk "a" 1 [(5, 1)]] [FeatureMeta.mk "a" 1 [(5, 1)]]
      [["out", "a"], ["out", "a", "r__fl.json"], ["out", "a", "r__fl.tiff"]] []
      (by rfl) (by rfl)⟩

/-! ## C2: the static remap table (src/main.py lines 42-60)

`PixelRemapSpecs` is a dict from new consolidated code to color, name and the
list of original raw codes.  `range(a, b)` is `List.range' a (b - a)`. -/

structure RemapEntry where
  color : Nat × Nat × Nat
  name : String
  original : List Nat
deriving DecidableEq, Repr

def reclass_spec : List (Nat × RemapEntry) := [
  (254, ⟨(0, 0, 0), "background", [0]⟩),   -- we cannot have 0
  (1, ⟨(147, 105, 48), "crops",
    List.range' 1 60 ++ List.range' 66 15 ++ List.range' 195 61⟩),
  (2, ⟨(100, 100, 100), "idle", [61]⟩),
  (3, ⟨(74, 59, 7), "grassland", [62, 176]⟩),
  (4, ⟨(53, 65, 22), "forest", [63, 141, 142, 143]⟩),
  (5, ⟨(78, 67, 27), "shrubland", [64, 152]⟩),
  (6, ⟨(50, 47, 36), "barren", [65, 131]⟩),
  (10, ⟨(195, 29, 20), "developed", [82]⟩),
  (11, ⟨(60, 32, 32), "developed_open", [121]⟩),
  (12, ⟨(106, 47, 31), "developed_low", [122]⟩),
  (13, ⟨(195, 29, 20), "developed_med", [123]⟩),
  (14, ⟨(139, 17, 11), "developed_high", [124]⟩),
  (20, ⟨(72, 93, 133), "water", [83, 111, 112]⟩),
  (21, ⟨(50, 103, 132), "wetlands", [87, 190]⟩),
  (22, ⟨(42, 45, 47), "woody_wetlands", [190]⟩),
  (28, ⟨(64, 76, 97), "aquaculture", [92]⟩),
  (255, ⟨(0, 0, 0), "missing", []⟩)
]

def defaultRemapEntry : RemapEntry := ⟨(0, 0, 0), "", []⟩

/-- The `original` list of the entry for a given new code. -/
def originalOf (newCode : Nat) : List Nat :=
  ((reclass_spec.lookup newCode).getD defaultRemapEntry).original

/-- C2 counterexample: the claim asserts the `original` sets of the entries
of `reclass_spec` are pairwise disjoint, but raw code 190 belongs to the
`original` set of new code 21 ("wetlands") and also to that of new code 22
("woody_wetlands"), so pairwise disjointness is false on the code. -/
theorem c2_counterexample :
    190 ∈ originalOf 21 ∧ 190 ∈ originalOf 22 ∧
    ¬ List.Pairwise
        (fun a b : Nat × RemapEntry => ∀ x ∈ a.2.original, x ∉ b.2.original)
        reclass_spec := by decide

/-- C2 (amended): the new codes of `reclass_spec` are pairwise distinct, 0 is
never used as a new code, raw code 0 is remapped to the dedicated background
code 254 (and to no other new code), every raw code mentioned lies in 0..255,
and the `original` sets are pairwise disjoint except that entries 21
(wetlands) and 22 (woody_wetlands) both contain raw code 190. -/
theorem c2_remap_invariants :
    (reclass_spec.map Prod.fst).Nodup ∧
    0 ∉ reclass_spec.map Prod.fst ∧
    0 ∈ originalOf 254 ∧
    ((reclass_spec.lookup 254).getD defaultRemapEntry).name = "background" ∧
    (∀ p ∈ reclass_spec, p.1 ≠ 254 → 0 ∉ p.2.original) ∧
    (∀ p ∈ reclass_spec, ∀ x ∈ p.2.original, x < 256) ∧
    List.Pairwise
      (fun a b : Nat × RemapEntry =>
        (∀ x ∈ a.2.original, x ∉ b.2.original) ∨ (a.1 = 21 ∧ b.1 = 22))
      reclass_spec := by
  set_option maxRecDepth 4096 in decide

/-! ## C5: merge-only chunk-name reconstruction (src/main.py lines 244-251)

The Python string operations on this path are modelled on character lists so
that they compute structurally.  The loop is

    for item in os.listdir(f'./working/{gdb_name}'):
      chunk_names = []
      if item.endswith('__output.gpkg'):
        chunk_name = item.split('__')[1].replace('__output.gpkg', '')
        chunk_names.append(chunk_name)
        break

`chunk_names` is re-created empty at every iteration and the loop breaks
after the first matching file. -/

def outputSuffix : List Char := "__output.gpkg".toList

/-- Everything after the first "__" (the leftmost, non-overlapping scan of
Python's str.split); `none` when the separator does not occur, in which case
Python's `[1]` indexing would raise, but every file name ending in
"__output.gpkg" contains the separator. -/
def afterFirstSep : List Char → Option (List Char)
  | '_' :: '_' :: rest => some rest
  | _ :: rest => afterFirstSep rest
  | [] => none

/-- The segment up to the next "__": combined with `afterFirstSep` this is
`item.split('__')[1]`. -/
def beforeNextSep : List Char → List Char
  | '_' :: '_' :: _ => []
  | c :: rest => c :: beforeNextSep rest
  | [] => []

/-- Python str.replace: replace all non-overlapping occurrences scanning left
to right, fueled by the string length (each step consumes at least one
character since the patterns used here are nonempty). -/
def replaceAllAux (pat rep : List Char) : Nat → List Char → List Char
  | 0, xs => xs
  | fuel + 1, xs =>
    if pat.isPrefixOf xs then rep ++ replaceAllAux pat rep fuel (xs.drop pat.length)
    else match xs with
      | [] => []
      | c :: r => c :: replaceAllAux pat rep fuel r

def replaceAll (pat rep xs : List Char) : List Char :=
  replaceAllAux pat rep xs.length xs

/-- `item.split('__')[1].replace('__output.gpkg', '')`. -/
def chunkNameOf (item : List Char) : List Char :=
  replaceAll outputSuffix [] (beforeNextSep ((afterFirstSep item).getD []))

/-- The chunk-name reconstruction loop of the merge-only path.  `none` models
the `NameError` hit when the directory listing is empty (`chunk_names` is
then never assigned and its later use fails). -/
def reconstruct_chunk_names : List (List Char) → Option (List (List Char))
  | [] => none
  | item :: rest =>
    -- chunk_names = [] is re-created at every iteration
    if outputSuffix.isSuffixOf item then some [chunkNameOf item]  -- append; break
    else
      match rest with
      | [] => some []       -- loop ends with the empty list of the last iteration
      | _ :: _ => reconstruct_chunk_names rest

/-- C5: the claim says the reconstructed chunk-name list contains the name of
every chunk whose '__output.gpkg' file is present; on a directory holding the
output files of chunks layer_1 and layer_2 the code instead returns only the
first name, because the loop breaks after one match. -/
theorem c5_reconstruction_misses_chunks :
    reconstruct_chunk_names
      ["parcels__layer_1__output.gpkg".toList,
       "parcels__layer_2__output.gpkg".toList] =
      some ["layer_1".toList] ∧
    some ["layer_1".toList] ≠
      some ["layer_1".toList, "layer_2".toList] := by
  exact ⟨by rfl, by decide⟩

/-! ## C6: merging chunked layers (src/main.py lines 253-276)

For each chunk name, the code computes the chunk output path and

  * if the path does not exist, it does nothing for that chunk (in
    particular it does not print anything);
  * otherwise it tries to read the counts layer, appending its rows to the
    merged counts frame, and prints an error line on failure; then it
    independently tries the trajectories layer the same way.

The disk is modelled as an association list from chunk name to the chunk's
output file content; a layer is `none` when reading it raises. -/

structure ChunkFile where
  counts : Option (List String)
  traj : Option (List String)
deriving DecidableEq, Repr

structure MergeState where
  counts : List String
  traj : List String
  logs : List String
deriving DecidableEq, Repr

/-- The error line `print(f'Error reading {chunk_path} layer "..."')` for the
counts layer; the chunk output path is determined by the chunk name, so the
message is modelled as a function of the chunk name. -/
def countsErrMsg (chunk_name : String) : String :=
  "Error reading " ++ chunk_name ++ " layer Parcels with CDL counts"

/-- The error line for the trajectories layer. -/
def trajErrMsg (chunk_name : String) : String :=
  "Error reading " ++ chunk_name ++ " layer Parcels with CDL pixel trajectories"

def merge_chunks (disk : List (String × ChunkFile)) :
    List String → MergeState → MergeState
  | [], st => st
  | name :: rest, st =>
    match disk.lookup name with
    | none => merge_chunks disk rest st  -- os.path.exists is false: silently skipped
    | some f =>
      let st1 := match f.counts with
        | some rows => { st with counts := st.counts ++ rows }
        | none => { st with logs := st.logs ++ [countsErrMsg name] }
      let st2 := match f.traj with
        | some rows => { st1 with traj := st1.traj ++ rows }
        | none => { st1 with logs := st1.logs ++ [trajErrMsg name] }
      merge_chunks disk rest st2

def merge_chunked_layers (names : List String)
    (disk : List (String × ChunkFile)) : MergeState :=
  merge_chunks disk names ⟨[], [], []⟩

/-- The rows a chunk contributes to the merged counts layer: its readable
counts rows, or nothing when the file is missing or the layer unreadable. -/
def readableCounts (disk : List (String × ChunkFile)) (n : String) : List String :=
  ((disk.lookup n).bind ChunkFile.counts).getD []

def readableTraj (disk : List (String × ChunkFile)) (n : String) : List String :=
  ((disk.lookup n).bind ChunkFile.traj).getD []

/-- The error lines one chunk produces during the merge: nothing when its
file is missing, one line per unreadable layer when it is present. -/
def logsOf (disk : List (String × ChunkFile)) (n : String) : List String :=
  match disk.lookup n with
  | none => []
  | some f =>
    (if f.counts.isNone then [countsErrMsg n] else []) ++
    (if f.traj.isNone then [trajErrMsg n] else [])

theorem merge_chunks_spec (disk : List (String × ChunkFile)) :
    ∀ (names : List String) (st : MergeState),
      merge_chunks disk names st =
        ⟨st.counts ++ (names.map (readableCounts disk)).flatten,
         st.traj ++ (names.map (readableTraj disk)).flatten,
         st.logs ++ (names.map (logsOf disk)).flatten⟩ := by
  intro names
  induction names with
  | nil => intro st; simp [merge_chunks]
  | cons name rest ih =>
    intro st
    simp only [merge_chunks]
    cases hd : disk.lookup name with
    | none => simp [ih, readableCounts, readableTraj, logsOf, hd]
    | some f =>
      cases hc : f.counts with
      | none =>
        cases ht : f.traj with
        | none => simp [ih, readableCounts, readableTraj, logsOf, hd, hc, ht]
        | some rowsT => simp [ih, readableCounts, readableTraj, logsOf, hd, hc, ht]
      | some rowsC =>
        cases ht : f.traj with
        | none => simp [ih, readableCounts, readableTraj, logsOf, hd, hc, ht]
        | some rowsT => simp [ih, readableCounts, readableTraj, logsOf, hd, hc, ht]

/-- C6 counterexample: the claim says every chunk whose output file is
missing is skipped and the problem is logged; merging the single chunk name
"chunk_1" over an empty disk skips it but produces no log line at all, so the
logging part of the claim is false on the code. -/
theorem c6_counterexample :
    (List.lookup "chunk_1" ([] : List (String × ChunkFile))).isNone = true ∧
    (merge_chunked_layers ["chunk_1"] []).logs = [] := by
  exact ⟨rfl, rfl⟩

/-- C6 (amended): during the merge, a chunk whose output file is missing is
skipped silently (no log line), a present chunk with an unreadable layer gets
an error line logged for that layer and contributes nothing for it, and in
all cases the merge continues: the merged counts and trajectory layers are
exactly the concatenation, in chunk order, of the readable layers of the
chunks present on disk. -/
theorem c6_merge_skips_and_logs (names : List String)
    (disk : List (String × ChunkFile)) :
    (merge_chunked_layers names disk).counts =
      (names.map (readableCounts disk)).flatten ∧
    (merge_chunked_layers names disk).traj =
      (names.map (readableTraj disk)).flatten ∧
    (merge_chunked_layers names disk).logs =
      (names.map (logsOf disk)).flatten ∧
    (∀ n ∈ names, ∀ f, disk.lookup n = some f → f.counts = none →
      countsErrMsg n ∈ (merge_chunked_layers names disk).logs) ∧
    (∀ n ∈ names, ∀ f, disk.lookup n = some f → f.traj = none →
      trajErrMsg n ∈ (merge_chunked_layers names disk).logs) := by
  have hspec := merge_chunks_spec disk names ⟨[], [], []⟩
  unfold merge_chunked_layers
  rw [hspec]
  refine ⟨by simp, by simp, by simp, ?_, ?_⟩
  · intro n hn f hf hc
    simp only [List.nil_append]
    refine List.mem_flatten.2 ⟨logsOf disk n, List.mem_map_of_mem _ hn, ?_⟩
    simp [logsOf, hf, hc]
  · intro n hn f hf ht
    simp only [List.nil_append]
    refine List.mem_flatten.2 ⟨logsOf disk n, List.mem_map_of_mem _ hn, ?_⟩
    simp [logsOf, hf, ht]

theorem c6_merge_skips_and_logs_witness :
    (merge_chunked_layers ["c1", "c2"]
      [("c2", ChunkFile.mk none (some ["t"]))]).counts = [] ∧
    (merge_chunked_layers ["c1", "c2"]
      [("c2", ChunkFile.mk none (some ["t"]))]).traj = ["t"] ∧
    (merge_chunked_layers ["c1", "c2"]
      [("c2", ChunkFile.mk none (some ["t"]))]).logs = [countsErrMsg "c2"] ∧
    countsErrMsg "c2" ∈ (merge_chunked_layers ["c1", "c2"]
      [("c2", ChunkFile.mk none (some ["t"]))]).logs :=
  ⟨(c6_merge_skips_and_logs ["c1", "c2"]
      [("c2", ChunkFile.mk none (some ["t"]))]).1,
   (c6_merge_skips_and_logs ["c1", "c2"]
      [("c2", ChunkFile.mk none (some ["t"]))]).2.1,
   (c6_merge_skips_and_logs ["c1", "c2"]
      [("c2", ChunkFile.mk none (some ["t"]))]).2.2.1,
   (c6_merge_skips_and_logs ["c1", "c2"]
      [("c2", ChunkFile.mk none (some ["t"]))]).2.2.2.1 "c2"
      (List.Mem.tail _ (List.Mem.head _)) (ChunkFile.mk none (some ["t"])) rfl rfl⟩

/-! ## C8: area-of-interest clipping (clip_cropscape_to_area_of_interest.py)

Geometry is abstracted to pixel footprints: in the raster's CRS a polygon set
determines the list of raster pixel coordinates (row, col) it covers.  The
reprojection collaborator (`rasterio.warp.transform_geom`) is an arbitrary
function of the source CRS, the destination CRS and the footprint, and
`rasterio.mask.mask(..., crop=True)` is modelled on footprints: the output
window is the bounding box of the (in-extent) footprint, pixels outside the
footprint are zeroed, and masking fails when the shapes do not overlap the
raster extent. -/

structure RasterMeta where
  driver : String
  height : Nat
  width : Nat
  nodata : Option Nat
deriving DecidableEq, Repr

structure AoiRaster where
  crs : Nat
  grid : List (List Nat)
  meta : RasterMeta
  colormap : List (Nat × (Nat × Nat × Nat))
deriving DecidableEq, Repr

structure GeoShapes where
  crs : Nat
  pixels : List (Nat × Nat)
deriving DecidableEq, Repr

def gridAt (grid : List (List Nat)) (r c : Nat) : Nat := (grid.getD r []).getD c 0

def validPixels (height width : Nat) (pixels : List (Nat × Nat)) :
    List (Nat × Nat) :=
  pixels.filter (fun p => p.1 < height ∧ p.2 < width)

def rminOf (vps : List (Nat × Nat)) : Nat := ((vps.map Prod.fst).min?).getD 0
def rmaxOf (vps : List (Nat × Nat)) : Nat := ((vps.map Prod.fst).max?).getD 0
def cminOf (vps : List (Nat × Nat)) : Nat := ((vps.map Prod.snd).min?).getD 0
def cmaxOf (vps : List (Nat × Nat)) : Nat := ((vps.map Prod.snd).max?).getD 0

/-- rasterio.mask.mask with crop=True on the footprint abstraction. -/
def rasterio_mask_crop (height width : Nat) (grid : List (List Nat))
    (pixels : List (Nat × Nat)) : Option (List (List Nat)) :=
  match validPixels height width pixels with
  | [] => none      -- ValueError: input shapes do not overlap raster
  | v :: rest =>
    let vps := v :: rest
    some ((List.range' (rminOf vps) (rmaxOf vps + 1 - rminOf vps)).map (fun r =>
      (List.range' (cminOf vps) (cmaxOf vps + 1 - cminOf vps)).map (fun c =>
        if (r, c) ∈ vps then gridAt grid r c else 0)))

/-- One iteration of the clipping loop (clip_cropscape_to_area_of_interest.py
lines 30-68): reproject the clip shapefile into the raster's CRS, mask with
crop=True, update the output metadata with the cropped dimensions, the GTiff
driver and nodata = 0, and write the output carrying the source raster's
band-1 colormap. -/
def clip_cropscape_year
    (reproject : Nat → Nat → List (Nat × Nat) → List (Nat × Nat))
    (raster : AoiRaster) (clip_shp : GeoShapes) : Option AoiRaster :=
  let reprojected := reproject clip_shp.crs raster.crs clip_shp.pixels
  match rasterio_mask_crop raster.meta.height raster.meta.width raster.grid
      reprojected with
  | none => none
  | some out_image =>
    some { crs := raster.crs
           grid := out_image
           meta := { driver := "GTiff"
                     height := out_image.length
                     width := (out_image.getD 0 []).length
                     nodata := some 0 }
           colormap := raster.colormap }

/-- C8: for every yearly raster processed by the area-of-interest clipper,
the AOI polygon set is first reprojected into the raster's CRS and only the
reprojected footprint is masked; masking uses crop=true so the output raster
dimensions shrink to the footprint's bounding box; and the output carries an
explicit nodata value of 0, the GTiff driver, the raster's CRS and the
source raster's original colormap, with pixels outside the AOI zeroed. -/
theorem c8_aoi_clip
    (reproject : Nat → Nat → List (Nat × Nat) → List (Nat × Nat))
    (raster : AoiRaster) (clip_shp : GeoShapes) (out : AoiRaster)
    (hok : clip_cropscape_year reproject raster clip_shp = some out) :
    out.meta.nodata = some 0 ∧
    out.meta.driver = "GTiff" ∧
    out.colormap = raster.colormap ∧
    out.crs = raster.crs ∧
    out.meta.height = out.grid.length ∧
    out.meta.width = (out.grid.getD 0 []).length ∧
    out.grid.length =
      rmaxOf (validPixels raster.meta.height raster.meta.width
          (reproject clip_shp.crs raster.crs clip_shp.pixels)) + 1 -
      rminOf (validPixels raster.meta.height raster.meta.width
          (reproject clip_shp.crs raster.crs clip_shp.pixels)) ∧
    (∀ row ∈ out.grid, row.length =
      cmaxOf (validPixels raster.meta.height raster.meta.width
          (reproject clip_shp.crs raster.crs clip_shp.pixels)) + 1 -
      cminOf (validPixels raster.meta.height raster.meta.width
          (reproject clip_shp.crs raster.crs clip_shp.pixels))) ∧
    (∀ (i j : Nat) (hi : i < out.grid.length)
        (hj : j < (out.grid.get ⟨i, hi⟩).length),
      (out.grid.get ⟨i, hi⟩).get ⟨j, hj⟩ =
        (if (rminOf (validPixels raster.meta.height raster.meta.width
              (reproject clip_shp.crs raster.crs clip_shp.pixels)) + i,
            cminOf (validPixels raster.meta.height raster.meta.width
              (reproject clip_shp.crs raster.crs clip_shp.pixels)) + j) ∈
            validPixels raster.meta.height raster.meta.width
              (reproject clip_shp.crs raster.crs clip_shp.pixels)
         then gridAt raster.grid
            (rminOf (validPixels raster.meta.height raster.meta.width
              (reproject clip_shp.crs raster.crs clip_shp.pixels)) + i)
            (cminOf (validPixels raster.meta.height raster.meta.width
              (reproject clip_shp.crs raster.crs clip_shp.pixels)) + j)
         else 0)) := by
  simp only [clip_cropscape_year, rasterio_mask_crop] at hok
  cases hvps : validPixels raster.meta.height raster.meta.width
      (reproject clip_shp.crs raster.crs clip_shp.pixels) with
  | nil => rw [hvps] at hok; exact absurd hok (by simp)
  | cons v rest =>
    rw [hvps] at hok
    simp only [Option.some.injEq] at hok
    subst hok
    refine ⟨rfl, rfl, rfl, rfl, rfl, rfl, by simp, ?_, ?_⟩
    · intro row hrow
      simp only [List.mem_map] at hrow
      obtain ⟨r, -, hr⟩ := hrow
      simp [← hr]
    · intro i j hi hj
      simp only [List.get_eq_getElem, List.getElem_map, List.getElem_range',
        Nat.one_mul]

theorem c8_aoi_clip_witness :
    clip_cropscape_year (fun _ _ ps => ps)
      (AoiRaster.mk 1 [[9, 8], [7, 6]] (RasterMeta.mk "GTiff" 2 2 none)
        [(9, (1, 2, 3))])
      (GeoShapes.mk 4 [(0, 0)]) =
      some (AoiRaster.mk 1 [[9]] (RasterMeta.mk "GTiff" 1 1 (some 0))
        [(9, (1, 2, 3))]) ∧
    (AoiRaster.mk 1 [[9]] (RasterMeta.mk "GTiff" 1 1 (some 0))
        [(9, (1, 2, 3))]).meta.nodata = some 0 ∧
    (AoiRaster.mk 1 [[9]] (RasterMeta.mk "GTiff" 1 1 (some 0))
        [(9, (1, 2, 3))]).meta.driver = "GTiff" ∧
    (AoiRaster.mk 1 [[9]] (RasterMeta.mk "GTiff" 1 1 (some 0))
        [(9, (1, 2, 3))]).colormap =
      (AoiRaster.mk 1 [[9, 8], [7, 6]] (RasterMeta.mk "GTiff" 2 2 none)
        [(9, (1, 2, 3))]).colormap :=
  ⟨by rfl,
   (c8_aoi_clip (fun _ _ ps => ps)
      (AoiRaster.mk 1 [[9, 8], [7, 6]] (RasterMeta.mk "GTiff" 2 2 none)
        [(9, (1, 2, 3))])
      (GeoShapes.mk 4 [(0, 0)])
      (AoiRaster.mk 1 [[9]] (RasterMeta.mk "GTiff" 1 1 (some 0))
        [(9, (1, 2, 3))]) (by rfl)).1,
   (c8_aoi_clip (fun _ _ ps => ps)
      (AoiRaster.mk 1 [[9, 8], [7, 6]] (RasterMeta.mk "GTiff" 2 2 none)
        [(9, (1, 2, 3))])
      (GeoShapes.mk 4 [(0, 0)])
      (AoiRaster.mk 1 [[9]] (RasterMeta.mk "GTiff" 1 1 (some 0))
        [(9, (1, 2, 3))]) (by rfl)).2.1,
   (c8_aoi_clip (fun _ _ ps => ps)
      (AoiRaster.mk 1 [[9, 8], [7, 6]] (RasterMeta.mk "GTiff" 2 2 none)
        [(9, (1, 2, 3))])
      (GeoShapes.mk 4 [(0, 0)])
      (AoiRaster.mk 1 [[9]] (RasterMeta.mk "GTiff" 1 1 (some 0))
        [(9, (1, 2, 3))]) (by rfl)).2.2.1⟩

/-! ## C3: identifier sanitization (src/main.py lines 125-147)

Cell values are modelled as character lists so that string concatenation
facts compute.  The code does, in order:

  1. `gdf[id_key] = gdf[id_key].astype(str)` — null cells become the literal
     string 'None' at this point;
  2. `null_mask = gdf[id_key].isnull()` — computed AFTER step 1, on a string
     column, so the mask is all-false and the `'NULL[[INPUT_FID]]' + fid`
     branch never fires;
  3. `gdf.duplicated(id_key, keep=False)` marks every row whose id occurs
     more than once, and each marked row gets `'[[INPUT_FID]]' + str(fid)`
     appended, where `INPUT_FID` is the row's file FID + 1 (pairwise
     distinct across rows because FIDs are unique in the source file). -/

def SEP : List Char := "[[INPUT_FID]]".toList

/-- pandas astype(str) on one cell: a null cell becomes the string 'None'. -/
def astype_str (id : Option (List Char)) : List Char := id.getD "None".toList

/-- Decimal digit characters of a natural number (str(n) for n > 0), with
structural fuel: any fuel of at least n steps yields the digits of n. -/
def toDecChars : Nat → Nat → List Char
  | 0, _ => []
  | _ + 1, 0 => []
  | fuel + 1, n + 1 =>
    toDecChars fuel ((n + 1) / 10) ++ [Nat.digitChar ((n + 1) % 10)]

/-- str(n): the decimal representation of a natural number. -/
def natChars (n : Nat) : List Char :=
  if n = 0 then ['0'] else toDecChars n n

/-- The identifier sanitization block: a row is the raw id cell paired with
the row's INPUT_FID. -/
def sanitize_ids (rows : List (Option (List Char) × Nat)) : List (List Char) :=
  let ids := rows.map (fun r => astype_str r.1)
  -- null_mask is all-false after astype(str): no change from that branch
  rows.map (fun r =>
    if 1 < ids.count (astype_str r.1)
    then astype_str r.1 ++ SEP ++ natChars r.2
    else astype_str r.1)

theorem toDecChars_fuel : ∀ n f1 f2 : Nat, n ≤ f1 → n ≤ f2 →
    toDecChars f1 n = toDecChars f2 n := by
  intro n
  induction n using Nat.strong_induction_on with
  | _ n ih =>
    intro f1 f2 h1 h2
    match n, f1, f2 with
    | 0, 0, 0 => rfl
    | 0, 0, _ + 1 => rfl
    | 0, _ + 1, 0 => rfl
    | 0, _ + 1, _ + 1 => rfl
    | m + 1, g1 + 1, g2 + 1 =>
      simp only [toDecChars]
      have hdiv : (m + 1) / 10 < m + 1 := Nat.div_lt_self (Nat.succ_pos m) (by norm_num)
      have hg1 : (m + 1) / 10 ≤ g1 := Nat.lt_succ_iff.1 (Nat.lt_of_lt_of_le hdiv h1)
      have hg2 : (m + 1) / 10 ≤ g2 := Nat.lt_succ_iff.1 (Nat.lt_of_lt_of_le hdiv h2)
      rw [ih _ hdiv g1 g2 hg1 hg2]

theorem toDecChars_zero (f : Nat) : toDecChars f 0 = [] := by
  match f with
  | 0 => rfl
  | _ + 1 => rfl

theorem toDecChars_self_eq (n : Nat) (h : 0 < n) :
    toDecChars n n = toDecChars (n / 10) (n / 10) ++ [Nat.digitChar (n % 10)] := by
  match n, h with
  | m + 1, _ =>
    simp only [toDecChars]
    have hdiv : (m + 1) / 10 < m + 1 := Nat.div_lt_self (Nat.succ_pos m) (by norm_num)
    rw [toDecChars_fuel ((m + 1) / 10) m ((m + 1) / 10) (Nat.lt_succ_iff.1 hdiv) le_rfl]

theorem toDecChars_self_ne_nil (n : Nat) (h : 0 < n) : toDecChars n n ≠ [] := by
  rw [toDecChars_self_eq n h]
  simp

theorem digitChar_inj_lt : ∀ a < 10, ∀ b < 10,
    Nat.digitChar a = Nat.digitChar b → a = b := by decide

theorem toDecChars_self_inj : ∀ n, 0 < n → ∀ m, 0 < m →
    toDecChars n n = toDecChars m m → n = m := by
  intro n
  induction n using Nat.strong_induction_on with
  | _ n ih =>
    intro hn m hm h
    rw [toDecChars_self_eq n hn, toDecChars_self_eq m hm] at h
    have hlast : Nat.digitChar (n % 10) = Nat.digitChar (m % 10) := by
      have := congrArg List.getLast? h
      simpa using this
    have hmod : n % 10 = m % 10 :=
      digitChar_inj_lt _ (Nat.mod_lt n (by norm_num)) _ (Nat.mod_lt m (by norm_num)) hlast
    have hinit : toDecChars (n / 10) (n / 10) = toDecChars (m / 10) (m / 10) := by
      have := congrArg List.dropLast h
      simpa using this
    have hdivEq : n / 10 = m / 10 := by
      rcases Nat.eq_zero_or_pos (n / 10) with hz | hp
      · rcases Nat.eq_zero_or_pos (m / 10) with hz' | hp'
        · rw [hz, hz']
        · rw [hz, toDecChars_zero] at hinit
          exact absurd hinit.symm (toDecChars_self_ne_nil _ hp')
      · rcases Nat.eq_zero_or_pos (m / 10) with hz' | hp'
        · rw [hz', toDecChars_zero] at hinit
          exact absurd hinit (toDecChars_self_ne_nil _ hp)
        · exact ih _ (Nat.div_lt_self hn (by norm_num)) hp _ hp' hinit
    calc n = 10 * (n / 10) + n % 10 := (Nat.div_add_mod n 10).symm
    _ = 10 * (m / 10) + m % 10 := by rw [hdivEq, hmod]
    _ = m := Nat.div_add_mod m 10

theorem natChars_inj : ∀ n m : Nat, natChars n = natChars m → n = m := by
  intro n m h
  unfold natChars at h
  rcases Nat.eq_zero_or_pos n with hn | hn <;>
    rcases Nat.eq_zero_or_pos m with hm | hm
  · rw [hn, hm]
  · exfalso
    rw [if_pos hn, if_neg (Nat.pos_iff_ne_zero.1 hm)] at h
    rw [toDecChars_self_eq m hm] at h
    have hinit : ([] : List Char) = toDecChars (m / 10) (m / 10) := by
      have := congrArg List.dropLast h
      simpa using this
    have hlast : ('0' : Char) = Nat.digitChar (m % 10) := by
      have := congrArg List.getLast? h
      simpa using this
    have hdiv : m / 10 = 0 := by
      rcases Nat.eq_zero_or_pos (m / 10) with hz | hp
      · exact hz
      · exact absurd hinit.symm (toDecChars_self_ne_nil _ hp)
    have hmod : m % 10 = 0 := by
      have := digitChar_inj_lt 0 (by norm_num) (m % 10) (Nat.mod_lt m (by norm_num))
        (by simpa using hlast)
      exact this.symm
    have : m = 0 := by
      have := Nat.div_add_mod m 10
      rw [hdiv, hmod] at this
      simpa using this.symm
    exact absurd this (Nat.pos_iff_ne_zero.1 hm)
  · exfalso
    rw [if_pos hm, if_neg (Nat.pos_iff_ne_zero.1 hn)] at h
    rw [toDecChars_self_eq n hn] at h
    have hinit : toDecChars (n / 10) (n / 10) = ([] : List Char) := by
      have := congrArg List.dropLast h
      simpa using this
    have hlast : Nat.digitChar (n % 10) = ('0' : Char) := by
      have := congrArg List.getLast? h
      simpa using this
    have hdiv : n / 10 = 0 := by
      rcases Nat.eq_zero_or_pos (n / 10) with hz | hp
      · exact hz
      · exact absurd hinit (toDecChars_self_ne_nil _ hp)
    have hmod : n % 10 = 0 := by
      exact digitChar_inj_lt (n % 10) (Nat.mod_lt n (by norm_num)) 0 (by norm_num)
        (by simpa using hlast)
    have : n = 0 := by
      have := Nat.div_add_mod n 10
      rw [hdiv, hmod] at this
      simpa using this.symm
    exact absurd this (Nat.pos_iff_ne_zero.1 hn)
  · rw [if_neg (Nat.pos_iff_ne_zero.1 hn), if_neg (Nat.pos_iff_ne_zero.1 hm)] at h
    exact toDecChars_self_inj n hn m hm h

theorem sep_no_border : ∀ k < SEP.length, 0 < k →
    SEP.drop k ≠ SEP.take (SEP.length - k) := by decide

theorem sep_framing_le (a b c d : List Char) (hlen : a.length ≤ c.length)
    (hc : ¬ SEP <:+: c)
    (h : a ++ SEP ++ b = c ++ SEP ++ d) : a = c := by
  rw [List.append_assoc, List.append_assoc] at h
  have hpa : a <+: c := by
    refine List.prefix_of_prefix_length_le ?_ (List.prefix_append c (SEP ++ d)) hlen
    exact h ▸ List.prefix_append a (SEP ++ b)
  obtain ⟨e, hce⟩ := hpa
  subst hce
  rw [List.append_assoc] at h
  have heq : SEP ++ b = e ++ (SEP ++ d) := List.append_cancel_left h
  cases e with
  | nil => simp
  | cons e0 erest =>
    exfalso
    rcases le_or_lt SEP.length (e0 :: erest).length with hle | hlt
    · have htake : SEP = (e0 :: erest).take SEP.length := by
        have h1 : (SEP ++ b).take SEP.length = SEP := List.take_left _ _
        have h2 : ((e0 :: erest) ++ (SEP ++ d)).take SEP.length =
            (e0 :: erest).take SEP.length := List.take_append_of_le_length hle
        conv_lhs => rw [← h1]
        rw [heq, h2]
      have hpre : SEP <+: (e0 :: erest) := by
        have := List.take_prefix SEP.length (e0 :: erest)
        rw [← htake] at this
        exact this
      exact hc (hpre.isInfix.trans (List.suffix_append a (e0 :: erest)).isInfix)
    · have hdrop : SEP.drop (e0 :: erest).length ++ b = SEP ++ d := by
        have h1 : (SEP ++ b).drop (e0 :: erest).length =
            SEP.drop (e0 :: erest).length ++ b :=
          List.drop_append_of_le_length (le_of_lt hlt)
        have h2 : ((e0 :: erest) ++ (SEP ++ d)).drop (e0 :: erest).length =
            SEP ++ d := by
          simp
        rw [← h1, heq, h2]
      have hborder : SEP.drop (e0 :: erest).length =
          SEP.take (SEP.length - (e0 :: erest).length) := by
        have hlend : (SEP.drop (e0 :: erest).length).length =
            SEP.length - (e0 :: erest).length := List.length_drop _ _
        calc SEP.drop (e0 :: erest).length
            = (SEP.drop (e0 :: erest).length ++ b).take
                (SEP.drop (e0 :: erest).length).length := (List.take_left _ _).symm
          _ = (SEP ++ d).take (SEP.drop (e0 :: erest).length).length := by rw [hdrop]
          _ = SEP.take (SEP.drop (e0 :: erest).length).length :=
              List.take_append_of_le_length (by simp)
          _ = SEP.take (SEP.length - (e0 :: erest).length) := by rw [hlend]
      exact absurd hborder
        (sep_no_border (e0 :: erest).length hlt (Nat.succ_pos _))

theorem sep_framing (a b c d : List Char) (ha : ¬ SEP <:+: a) (hc : ¬ SEP <:+: c)
    (h : a ++ SEP ++ b = c ++ SEP ++ d) : a = c ∧ b = d := by
  have hac : a = c := by
    rcases le_total a.length c.length with hle | hle
    · exact sep_framing_le a b c d hle hc h
    · exact (sep_framing_le c d a b hle ha h.symm).symm
  subst hac
  refine ⟨rfl, ?_⟩
  rw [List.append_assoc, List.append_assoc] at h
  exact List.append_cancel_left (List.append_cancel_left h)

theorem two_le_count_of_getElem {α : Type} [BEq α] [LawfulBEq α] (l : List α) (a : α)
    (i j : Nat) (hi : i < l.length) (hj : j < l.length) (hij : i < j)
    (hia : l.get ⟨i, hi⟩ = a) (hja : l.get ⟨j, hj⟩ = a) :
    2 ≤ l.count a := by
  have h1 : a ∈ l.take j := by
    refine List.mem_iff_getElem.2 ⟨i, ?_, ?_⟩
    · simp only [List.length_take]
      omega
    · simp only [List.getElem_take]
      exact hia
  have h2 : a ∈ l.drop j := by
    refine List.mem_iff_getElem.2 ⟨0, ?_, ?_⟩
    · simp only [List.length_drop]
      omega
    · simpa using hja
  have hc1 : 0 < (l.take j).count a := List.count_pos_iff.2 h1
  have hc2 : 0 < (l.drop j).count a := List.count_pos_iff.2 h2
  have hsum : l.count a = (l.take j).count a + (l.drop j).count a := by
    conv_lhs => rw [← List.take_append_drop j l]
    rw [List.count_append]
  omega

/-- C3 (amended): after the identifier sanitization of the orchestrator, the
id column contains pairwise distinct strings PROVIDED that no stringified
input identifier contains the substring '[[INPUT_FID]]' (a duplicated id can
otherwise collide with an untouched id that already ends in the rewrite
pattern), given that the INPUT_FID values are pairwise distinct; null cells
are stringified to 'None' before the (dead) null branch, so they are handled
by the duplicate rule; the rewriting is a pure function of the input, hence
reproducible across runs. -/
theorem c3_sanitized_unique (rows : List (Option (List Char) × Nat))
    (hfid : (rows.map Prod.snd).Nodup)
    (hsep : ∀ r ∈ rows, ¬ SEP <:+: astype_str r.1) :
    (sanitize_ids rows).Nodup := by
  simp only [sanitize_ids]
  unfold List.Nodup
  rw [List.pairwise_map, List.pairwise_iff_getElem]
  intro i j hi hj hij hcontra
  have hmemi : rows[i] ∈ rows := List.getElem_mem hi
  have hmemj : rows[j] ∈ rows := List.getElem_mem hj
  have hfne : (rows[i]).2 ≠ (rows[j]).2 := by
    intro hsame
    have h1 : (rows.map Prod.snd).get ⟨i, by simpa using hi⟩ = (rows[i]).2 := by simp
    have h2 : (rows.map Prod.snd).get ⟨j, by simpa using hj⟩ = (rows[j]).2 := by simp
    have hfin := hfid.get_inj_iff.1 (h1.trans (hsame.trans h2.symm))
    have : i = j := congrArg Fin.val hfin
    omega
  by_cases hmi : 1 < (rows.map fun r => astype_str r.1).count (astype_str (rows[i]).1) <;>
    by_cases hmj : 1 < (rows.map fun r => astype_str r.1).count (astype_str (rows[j]).1)
  · rw [if_pos hmi, if_pos hmj] at hcontra
    obtain ⟨hid, hd⟩ := sep_framing _ _ _ _ (hsep _ hmemi) (hsep _ hmemj) hcontra
    exact hfne (natChars_inj _ _ hd)
  · rw [if_pos hmi, if_neg hmj] at hcontra
    exact hsep _ hmemj ⟨astype_str (rows[i]).1, natChars (rows[i]).2, hcontra⟩
  · rw [if_neg hmi, if_pos hmj] at hcontra
    exact hsep _ hmemi ⟨astype_str (rows[j]).1, natChars (rows[j]).2, hcontra.symm⟩
  · rw [if_neg hmi, if_neg hmj] at hcontra
    apply hmi
    have hgi : (rows.map fun r => astype_str r.1).get ⟨i, by simpa using hi⟩ =
        astype_str (rows[i]).1 := by simp
    have hgj : (rows.map fun r => astype_str r.1).get ⟨j, by simpa using hj⟩ =
        astype_str (rows[j]).1 := by simp
    exact lt_of_lt_of_le one_lt_two
      (two_le_count_of_getElem (rows.map fun r => astype_str r.1)
        (astype_str (rows[i]).1) i j
        (by simpa using hi) (by simpa using hj) hij hgi (hgj.trans hcontra.symm))

/-- C3 counterexample: the claim says the sanitized id column always contains
unique strings; on input rows with ids 'x[[INPUT_FID]]2', 'x', 'x' and
INPUT_FIDs 1, 2, 3 (all ids non-null, all FIDs distinct), the duplicate rows
are rewritten to 'x[[INPUT_FID]]2' and 'x[[INPUT_FID]]3', and the first of
them collides with the untouched first row, so the sanitized ids are not
unique. -/
theorem c3_counterexample :
    ([1, 2, 3] : List Nat).Nodup ∧
    ¬ (sanitize_ids [(some "x[[INPUT_FID]]2".toList, 1),
                     (some "x".toList, 2),
                     (some "x".toList, 3)]).Nodup := by decide

theorem c3_sanitized_unique_witness :
    (([(some "a".toList, 1), (none, 2), (none, 3)] :
        List (Option (List Char) × Nat)).map Prod.snd).Nodup ∧
    (∀ r ∈ ([(some "a".toList, 1), (none, 2), (none, 3)] :
        List (Option (List Char) × Nat)), ¬ SEP <:+: astype_str r.1) ∧
    (sanitize_ids [(some "a".toList, 1), (none, 2), (none, 3)]).Nodup :=
  ⟨by decide, by decide,
   c3_sanitized_unique [(some "a".toList, 1), (none, 2), (none, 3)]
     (by decide) (by decide)⟩
